import Mathlib

/-!
Verification development for the pulsar event subsystem
(`src/pulsar/async/events.py`): a shallow embedding of the
`Event` / `ManyEvent` / `OneTime` / `EventHandler` classes, together with
theorems about their behaviour.

The `Deferred` class (module `pulsar/async/defer.py`) is not part of the
sources; its behaviour is modelled from the specification (spec.md sections
3, 4.1 and 5): a single-assignment future with an ordered pile of
`(callback, errback)` pairs, appended while pending and invoked in
registration order at completion, immediate invocation when adding to a
settled future, adoption of inner futures ("chaining") and idempotent
cancellation that fails pending waiters with `Cancelled`.

Python exceptions are made explicit (`Err`), side effects (logging,
callback invocation, scheduling of generators) are recorded in traces
(`Ev`), and mutation is explicit state passing.  Callbacks are represented
by identifiers so that traces record which callback ran with which value.
Recursion through callback piles is bounded by explicit fuel; every
theorem supplies enough fuel for the runs it describes.
-/

namespace Pulsar

/-- Python values appearing as event arguments/results: either a plain
value (represented by a natural number) or the `EventHandler` instance
itself (`fire_event` defaults `arg` to `self`). -/
inductive PVal where
  | num (n : Nat)
  | handlerSelf
deriving DecidableEq

/-- Python exceptions relevant to the embedded code. -/
inductive Err where
  | cancelled
  | assertionError
  | nameError
  | userError (n : Nat)
deriving DecidableEq

/-- The settled outcome of a deferred: a value or an exception. -/
inductive DResult where
  | val (v : PVal)
  | err (e : Err)
deriving DecidableEq

/-- Entries of a deferred's callback pile.  `user i` is an opaque user
callback, `check` is the bound method `OneTime._check`, `fireEv j` is the
bound method `fire` of the `OneTime` at world index `j` (added by
`OneTime.chain`), and `settleEv j` is the bound `callback`/`errback` of
the deferred of the `OneTime` at index `j` (added by `Deferred.chain`). -/
inductive CB where
  | user (i : Nat)
  | check
  | fireEv (j : Nat)
  | settleEv (j : Nat)
deriving DecidableEq

/-- A `(callback, errback)` pair as stored by `Deferred.add_callback`;
`none` means no errback was supplied. -/
abbrev CBPair := CB × Option CB

/-- Observable trace events: callback invocations, log messages, generator
scheduling and deferred settlements. -/
inductive Ev where
  | inv (i : Nat) (r : DResult)
  | minv (i : Nat) (arg : PVal) (kwargs : List (String × PVal))
  | loggedExc (name : String) (arg : PVal)
  | scheduled (i : Nat)
  | warnFired (name : String)
  | warnUnknown (name : String)
  | settled (j : Nat) (r : DResult)
  | alreadySettled (j : Nat)
deriving DecidableEq

/-- State of a `OneTime` event (source lines 78-124).  A `OneTime` is a
`Deferred` (the "outer" deferred, fields `outerResult`/`outerCallbacks`
and `chained` for `_chained_to`) and owns an internal deferred
`self._events` (fields `eventsResult`/`eventsCallbacks`); `eventsWaiting`
records that `_events` has adopted a not-yet-settled inner deferred
passed to `fire`. -/
structure OneTime where
  name : String
  pauseCounter : Nat := 0
  chained : Bool := false
  eventsResult : Option DResult := none
  eventsWaiting : Bool := false
  eventsCallbacks : List CBPair := []
  outerResult : Option DResult := none
  outerCallbacks : List CBPair := []
deriving DecidableEq

/-- A world of `OneTime` events, addressed by index (bound callbacks of
`chain` refer to other events, so events live in a shared world). -/
abbrev World := List OneTime

/-- Update the event at index `j` of the world, if present. -/
def updateW (w : World) (j : Nat) (f : OneTime → OneTime) : World :=
  match w[j]? with
  | none => w
  | some ot => w.set j (f ot)

/-- `Event.has_fired` (source lines 19-24): the base class returns `True`
unconditionally ("this only make sense for one time events"). -/
def Event.has_fired : Bool := true

/-- A bound handler of a `ManyEvent`, as data so that invocations can be
traced: `ret i` returns a plain value, `raises i` raises an exception,
`gen i` returns a generator object. -/
inductive MHandler where
  | ret (i : Nat)
  | raises (i : Nat)
  | gen (i : Nat)
deriving DecidableEq

/-- Identifier of a many-times handler. -/
def MHandler.hid : MHandler → Nat
  | MHandler.ret i => i
  | MHandler.raises i => i
  | MHandler.gen i => i

/-- Result of calling a many-times handler: a plain value or a generator
object (`isgenerator(g)` in the source). -/
inductive MRes where
  | value
  | generator
deriving DecidableEq

/-- Apply a many-times handler to `arg` and keyword arguments; raising
handlers produce an exception. -/
def MHandler.apply : MHandler → PVal → List (String × PVal) → Except Err MRes
  | MHandler.ret _, _, _ => Except.ok MRes.value
  | MHandler.raises i, _, _ => Except.error (Err.userError i)
  | MHandler.gen _, _, _ => Except.ok MRes.generator

/-- State of a `ManyEvent` (source lines 41-75). -/
structure ManyEvent where
  name : String
  handlers : List MHandler := []
  pauseCounter : Nat := 0
deriving DecidableEq

/-- `ManyEvent.has_fired`: inherited from `Event` (always `True`). -/
def ManyEvent.has_fired (_ : ManyEvent) : Bool := Event.has_fired

/-- `ManyEvent.bind` (source lines 51-53): `assert errback == None`, then
append the callback.  On assertion failure the handler list is left
unchanged and the error propagates. -/
def ManyEvent.bind (e : ManyEvent) (callback : MHandler) (errback : Option Nat) :
    ManyEvent × Option Err :=
  if errback = none then
    ({ e with handlers := e.handlers ++ [callback] }, none)
  else
    (e, some Err.assertionError)

/-- `ManyEvent.pause` (source lines 70-75): increments the pause counter
only when `has_fired()` is false; `has_fired` is inherited from `Event`
and always returns `True`, so the body never executes. -/
def ManyEvent.pause (e : ManyEvent) : ManyEvent :=
  if ¬ e.has_fired then
    if e.pauseCounter = 0 then { e with pauseCounter := 1 }
    else { e with pauseCounter := e.pauseCounter + 1 }
  else e

/-- Trace of one handler invocation inside `ManyEvent.fire`: the call
itself, then either nothing (plain value), a logged exception (the
`except` branch) or a scheduling of the returned generator
(`maybe_async(g)`, modelled from the spec as a trace event). -/
def ManyEvent.fireOne (name : String) (arg : PVal) (kwargs : List (String × PVal))
    (h : MHandler) : List Ev :=
  Ev.minv h.hid arg kwargs ::
    (match h.apply arg kwargs with
     | Except.error _ => [Ev.loggedExc name arg]
     | Except.ok MRes.generator => [Ev.scheduled h.hid]
     | Except.ok MRes.value => [])

/-- `ManyEvent.fire` (source lines 55-68): if paused, decrement and
return; otherwise invoke every bound handler in order with `arg` and the
keyword arguments, catching and logging exceptions; `callback` and
`errback` are accepted and ignored, exactly as in the source. -/
def ManyEvent.fire (e : ManyEvent) (arg : PVal) (_callback _errback : Option Nat)
    (kwargs : List (String × PVal)) : ManyEvent × List Ev × Option Err :=
  if e.pauseCounter ≠ 0 then
    ({ e with pauseCounter := e.pauseCounter - 1 }, [], none)
  else
    (e, e.handlers.flatMap (ManyEvent.fireOne e.name arg kwargs), none)

/-- Project the handler-invocation events out of a trace. -/
def invOf : Ev → Option (Nat × PVal × List (String × PVal))
  | Ev.minv i a k => some (i, a, k)
  | _ => none

/-- The argument passed to `OneTime.fire`: a plain (already settled) value
or an unsettled `Deferred` (the asynchronous case of the source). -/
inductive FireArg where
  | value (r : DResult)
  | pendingDeferred
deriving DecidableEq

mutual

/-- Run the callback pile of the internal deferred `self._events` of the
`OneTime` at index `j` with settled result `r`: pop the head pair, invoke
it, repeat on the live pile (entries appended by an invoked callback are
processed too).  Modelled from the spec: pairs run in registration order,
each receiving the settled result. -/
def runEventsCallbacks (fuel : Nat) (w : World) (j : Nat) (r : DResult) :
    World × List Ev :=
  match fuel with
  | 0 => (w, [])
  | f + 1 =>
    match w[j]? with
    | none => (w, [])
    | some ot =>
      match ot.eventsCallbacks with
      | [] => (w, [])
      | p :: rest =>
        let w1 := w.set j { ot with eventsCallbacks := rest }
        let s1 := invokePair f w1 j p r
        let s2 := runEventsCallbacks f s1.1 j r
        (s2.1, s1.2 ++ s2.2)
termination_by structural fuel

/-- Run the callback pile of the outer deferred (the `Deferred` that
`OneTime` extends) of the event at index `j`, like `runEventsCallbacks`. -/
def runOuterCallbacks (fuel : Nat) (w : World) (j : Nat) (r : DResult) :
    World × List Ev :=
  match fuel with
  | 0 => (w, [])
  | f + 1 =>
    match w[j]? with
    | none => (w, [])
    | some ot =>
      match ot.outerCallbacks with
      | [] => (w, [])
      | p :: rest =>
        let w1 := w.set j { ot with outerCallbacks := rest }
        let s1 := invokePair f w1 j p r
        let s2 := runOuterCallbacks f s1.1 j r
        (s2.1, s1.2 ++ s2.2)
termination_by structural fuel

/-- Invoke one `(callback, errback)` pair with result `r`.  Modelled from
the spec: the callback receives a value result, the errback (when
present) receives an error result; a missing errback lets an error pass
through untouched. -/
def invokePair (fuel : Nat) (w : World) (j : Nat) (p : CBPair) (r : DResult) :
    World × List Ev :=
  match fuel with
  | 0 => (w, [])
  | f + 1 =>
    match r with
    | DResult.val _ => invokeCB f w j p.1 r
    | DResult.err _ =>
      match p.2 with
      | some eb => invokeCB f w j eb r
      | none => (w, [])
termination_by structural fuel

/-- Invoke a single callback with result `r`.  `user i` only leaves a
trace; `check` is `OneTime._check` (source lines 118-124): if other
callbacks have been added to `self._events`, put another check at the end
of the pile, else if `self._chained_to is None`, settle the outer
deferred with the result; `fireEv k` is a bound `fire` of another
`OneTime` (added by `chain`); `settleEv k` is a bound `callback` of
another outer deferred (added by `Deferred.chain`). -/
def invokeCB (fuel : Nat) (w : World) (j : Nat) (cb : CB) (r : DResult) :
    World × List Ev :=
  match fuel with
  | 0 => (w, [])
  | f + 1 =>
    match cb with
    | CB.user i => (w, [Ev.inv i r])
    | CB.check =>
      match w[j]? with
      | none => (w, [])
      | some ot =>
        if ot.eventsCallbacks ≠ [] then
          (w.set j
            { ot with eventsCallbacks := ot.eventsCallbacks ++ [(CB.check, none)] },
           [])
        else if ot.chained = false then
          deferredCallback f w j r
        else (w, [])
    | CB.fireEv k =>
      let s := OneTime.fire f w k (FireArg.value r) none none []
      (s.1, s.2.1)
    | CB.settleEv k => deferredCallback f w k r
termination_by structural fuel

/-- Settle the outer deferred of the event at index `j` with result `r`
and run its callback pile (`self.callback(result)` on the `Deferred` base
of `OneTime`).  Modelled from the spec: settling an already done future
is a misuse (`AlreadySettled`), recorded as a trace event. -/
def deferredCallback (fuel : Nat) (w : World) (j : Nat) (r : DResult) :
    World × List Ev :=
  match fuel with
  | 0 => (w, [])
  | f + 1 =>
    match w[j]? with
    | none => (w, [])
    | some ot =>
      if ot.outerResult.isSome then (w, [Ev.alreadySettled j])
      else
        let w1 := w.set j { ot with outerResult := some r }
        let s := runOuterCallbacks f w1 j r
        (s.1, Ev.settled j r :: s.2)
termination_by structural fuel

/-- `self.add_callback(callback, errback)` on the outer deferred of the
event at index `j`.  Modelled from the spec: adding to a done future
invokes the pair immediately, otherwise it is appended to the pile. -/
def addOuterCallback (fuel : Nat) (w : World) (j : Nat) (p : CBPair) :
    World × List Ev :=
  match fuel with
  | 0 => (w, [])
  | f + 1 =>
    match w[j]? with
    | none => (w, [])
    | some ot =>
      match ot.outerResult with
      | some r => invokePair f w j p r
      | none =>
        (w.set j { ot with outerCallbacks := ot.outerCallbacks ++ [p] }, [])
termination_by structural fuel

/-- `OneTime.fire` (source lines 91-108).  If paused, decrement the pause
counter and return; if `self._events.done()`, log a warning; otherwise
assert that no keyword parameters were passed, optionally bind the
`callback` argument on the outer deferred, settle `self._events` with
`arg` and run its pile; if `arg` was itself a deferred, append
`self._check` as callback and errback at the end of the pile and return
`self`; else, if `self._chained_to is None`, settle the outer deferred
with the result. -/
def OneTime.fire (fuel : Nat) (w : World) (j : Nat) (arg : FireArg)
    (callback errback : Option Nat) (kwargs : List (String × PVal)) :
    World × List Ev × Option Err :=
  match fuel with
  | 0 => (w, [], none)
  | f + 1 =>
    match w[j]? with
    | none => (w, [], none)
    | some ot =>
      if ot.pauseCounter ≠ 0 then
        (w.set j { ot with pauseCounter := ot.pauseCounter - 1 }, [], none)
      else if ot.eventsResult.isSome then
        (w, [Ev.warnFired ot.name], none)
      else if ¬ kwargs.isEmpty then
        (w, [], some Err.assertionError)
      else
        let s1 : World × List Ev :=
          match callback with
          | some i => addOuterCallback f w j (CB.user i, errback.map CB.user)
          | none => (w, [])
        match arg with
        | FireArg.pendingDeferred =>
          let w2 := updateW s1.1 j (fun o =>
            { o with eventsWaiting := true,
                     eventsCallbacks :=
                       o.eventsCallbacks ++ [(CB.check, some CB.check)] })
          (w2, s1.2, none)
        | FireArg.value r =>
          let w2 := updateW s1.1 j (fun o => { o with eventsResult := some r })
          let s2 := runEventsCallbacks f w2 j r
          match s2.1[j]? with
          | none => (s2.1, s1.2 ++ s2.2, none)
          | some o2 =>
            if o2.chained = false then
              let s3 := deferredCallback f s2.1 j r
              (s3.1, s1.2 ++ s2.2 ++ s3.2, none)
            else
              (s2.1, s1.2 ++ s2.2, none)
termination_by structural fuel

end

/-- `OneTime.has_fired` (source lines 88-89): `self._events.done()`. -/
def OneTime.has_fired (ot : OneTime) : Bool :=
  ot.eventsResult.isSome

/-- `Deferred.done` on the outer deferred of a `OneTime`.  Modelled from
the spec: a future is done once it has settled. -/
def OneTime.done (ot : OneTime) : Bool :=
  ot.outerResult.isSome

/-- `Event.pause` (source lines 34-38), inherited unchanged by `OneTime`:
increment the pause counter (setting it to 1 when it was falsy). -/
def OneTime.pause (ot : OneTime) : OneTime :=
  if ot.pauseCounter = 0 then { ot with pauseCounter := 1 }
  else { ot with pauseCounter := ot.pauseCounter + 1 }

/-- `OneTime.bind` (source lines 85-86):
`self._events.add_callback(callback, errback)`.  Modelled from the spec:
adding to a settled deferred invokes the pair immediately, otherwise it
is appended to the pile. -/
def OneTime.bind (fuel : Nat) (w : World) (j : Nat) (callback : Nat)
    (errback : Option Nat) : World × List Ev :=
  match w[j]? with
  | none => (w, [])
  | some ot =>
    match ot.eventsResult with
    | some r => invokePair fuel w j (CB.user callback, errback.map CB.user) r
    | none =>
      (w.set j
        { ot with eventsCallbacks :=
            ot.eventsCallbacks ++ [(CB.user callback, errback.map CB.user)] },
       [])

/-- `OneTime.chain` (source lines 110-116): if the chained `event` (here
the `OneTime` at index `other`) has not fired, add `event.fire` as
callback and errback of `self`; else, if `event` is not done, fall back
to `Deferred.chain` (modelled from the spec: the target adopts this
deferred's eventual result; `event._chained_to` is set and the target's
`callback`/`errback` pair is added to `self`). -/
def OneTime.chain (fuel : Nat) (w : World) (j other : Nat) : World × List Ev :=
  match w[other]? with
  | none => (w, [])
  | some oth =>
    if ¬ oth.has_fired then
      addOuterCallback fuel w j (CB.fireEv other, some (CB.fireEv other))
    else if ¬ oth.done then
      let w1 := updateW w other (fun o => { o with chained := true })
      addOuterCallback fuel w1 j (CB.settleEv other, some (CB.settleEv other))
    else (w, [])

/-- `Deferred.cancel(mute=True)` on a `OneTime`.  Modelled from the spec:
cancelling a pending future fails its waiters with `Cancelled` and is
idempotent, a done future is left unchanged. -/
def OneTime.cancel (fuel : Nat) (w : World) (j : Nat) : World × List Ev :=
  match w[j]? with
  | none => (w, [])
  | some ot =>
    if ot.outerResult.isSome then (w, [])
    else deferredCallback fuel w j (DResult.err Err.cancelled)

/-- Settlement of the inner deferred that was passed to `fire` as `arg`.
Modelled from the spec: when the inner future settles, the adopting
deferred (`self._events`) adopts its final outcome and its own callbacks
fire with it. -/
def settleInner (fuel : Nat) (w : World) (j : Nat) (r : DResult) :
    World × List Ev :=
  match w[j]? with
  | none => (w, [])
  | some ot =>
    if ot.eventsWaiting then
      let w1 := w.set j { ot with eventsWaiting := false, eventsResult := some r }
      runEventsCallbacks fuel w1 j r
    else (w, [])

/-- Bind a list of user callbacks in order (repeated `bind` calls). -/
def bindAll (fuel : Nat) (w : World) (j : Nat) (cbs : List Nat) :
    World × List Ev :=
  cbs.foldl (fun acc i =>
    let s := OneTime.bind fuel acc.1 j i none
    (s.1, acc.2 ++ s.2)) (w, [])

/-- An entry of an `EventHandler`'s event table: a `OneTime` (stored in
the shared world, referenced by index) or a `ManyEvent` (stored
inline). -/
inductive Entry where
  | one (j : Nat)
  | many (m : ManyEvent)
deriving DecidableEq

/-- `EventHandler` (source lines 128-229): the mixin's `_events` mapping
from event name to event instance. -/
structure EventHandler where
  events : List (String × Entry)
deriving DecidableEq

/-- `EventHandler.event` (source lines 156-158): `self._events.get(name)`. -/
def EventHandler.event (h : EventHandler) (name : String) : Option Entry :=
  (h.events.find? (fun p => p.1 == name)).map Prod.snd

/-- Replace the entry stored under `name` (auxiliary for updating the
table after an operation on a `ManyEvent` stored inline). -/
def EventHandler.setEntry (h : EventHandler) (name : String) (e : Entry) :
    EventHandler :=
  ⟨h.events.map (fun p => if p.1 == name then (p.1, e) else p)⟩

/-- `EventHandler.bind_event` (source lines 160-174): if the name is in
the table, bind on that event (which for a `ManyEvent` asserts that no
errback is given); otherwise log a warning and change nothing. -/
def EventHandler.bind_event (fuel : Nat) (w : World) (h : EventHandler)
    (name : String) (callback : MHandler) (errback : Option Nat) :
    World × EventHandler × List Ev × Option Err :=
  match h.event name with
  | some (Entry.one j) =>
    let s := OneTime.bind fuel w j callback.hid errback
    (s.1, h, s.2, none)
  | some (Entry.many m) =>
    let s := m.bind callback errback
    (w, h.setEntry name (Entry.many s.1), [], s.2)
  | none => (w, h, [Ev.warnUnknown name], none)

/-- `EventHandler.fire_event` (source lines 183-200): default `arg` to
`self`; if the name is in the table, fire that event; otherwise the
source reads `elif warning:`, and the name `warning` is undefined in the
module, so the lookup of that guard raises `NameError` before anything is
logged or returned. -/
def EventHandler.fire_event (fuel : Nat) (w : World) (h : EventHandler)
    (name : String) (arg : Option PVal) (callback errback : Option Nat)
    (kwargs : List (String × PVal)) :
    World × EventHandler × List Ev × Option Err :=
  let a := match arg with
    | none => PVal.handlerSelf
    | some v => v
  match h.event name with
  | some (Entry.one j) =>
    let s := OneTime.fire fuel w j (FireArg.value (DResult.val a)) callback errback kwargs
    (s.1, h, s.2.1, s.2.2)
  | some (Entry.many m) =>
    let s := m.fire a callback errback kwargs
    (w, h.setEntry name (Entry.many s.1), s.2.1, s.2.2)
  | none => (w, h, [], some Err.nameError)

/-- `EventHandler.pause_event` (source lines 202-210): pause the event
named `name` when present (each variant with its own `pause`). -/
def EventHandler.pause_event (w : World) (h : EventHandler) (name : String) :
    World × EventHandler :=
  match h.event name with
  | some (Entry.one j) => (updateW w j OneTime.pause, h)
  | some (Entry.many m) => (w, h.setEntry name (Entry.many m.pause))
  | none => (w, h)

/-- One iteration of the loop of `cancel_one_time_events`: a `OneTime`
entry whose own `name` is not in `exclude` is cancelled (`event.cancel`);
`ManyEvent` entries are skipped by the `isinstance` check. -/
def cancelStep (fuel : Nat) (exclude : List String)
    (acc : World × List Ev) (p : String × Entry) : World × List Ev :=
  match p.2 with
  | Entry.one j =>
    match acc.1[j]? with
    | none => acc
    | some ot =>
      if ot.name ∈ exclude then acc
      else
        let s := OneTime.cancel fuel acc.1 j
        (s.1, acc.2 ++ s.2)
  | Entry.many _ => acc

/-- `EventHandler.cancel_one_time_events` (source lines 224-229): for
every `OneTime` in the table whose own `name` is not in `exclude`, call
`event.cancel(mute=True)`. -/
def EventHandler.cancel_one_time_events (fuel : Nat) (w : World)
    (h : EventHandler) (exclude : List String) : World × List Ev :=
  h.events.foldl (cancelStep fuel exclude) (w, [])

/-- `EventHandler.chain_event` (source lines 212-222): chain the events
stored under `name` in both handlers, when both exist; chaining on a
`ManyEvent` would dispatch to `Event.chain`, which raises
`NotImplementedError` (modelled as an unhandled user error), while a
`ManyEvent` target fails the `isinstance` test inside `OneTime.chain`
and is ignored. -/
def EventHandler.chain_event (fuel : Nat) (w : World) (h other : EventHandler)
    (name : String) : World × List Ev × Option Err :=
  match h.event name with
  | some (Entry.one j) =>
    match other.event name with
    | some (Entry.one k) =>
      let s := OneTime.chain fuel w j k
      (s.1, s.2, none)
    | some (Entry.many _) => (w, [], none)
    | none => (w, [], none)
  | some (Entry.many _) =>
    match other.event name with
    | some _ => (w, [], some (Err.userError 0))
    | none => (w, [], none)
  | none => (w, [], none)

/-! ## Generic helper lemmas -/

/-- Writing back the element that is already at index `j` leaves the list
unchanged. -/
theorem set_get_self {α : Type} (l : List α) (j : Nat) (x : α)
    (h : l[j]? = some x) : l.set j x = l := by
  induction l generalizing j with
  | nil => simp at h
  | cons a t ih =>
    cases j with
    | zero => simp_all
    | succ k =>
      simp only [List.getElem?_cons_succ] at h
      simp [List.set_cons_succ, ih k h]

/-! ## Lemmas about callback pile runs -/

/-- A pile run on an event whose events pile is empty is a no-op. -/
theorem runEvents_nil (f : Nat) (w : World) (j : Nat) (r : DResult)
    (ot : OneTime) (hw : w[j]? = some ot) (hcb : ot.eventsCallbacks = []) :
    runEventsCallbacks f w j r = (w, []) := by
  cases f with
  | zero => simp [runEventsCallbacks]
  | succ g => simp [runEventsCallbacks, hw, hcb]

/-- A pile run on an event whose outer pile is empty is a no-op. -/
theorem runOuter_nil (f : Nat) (w : World) (j : Nat) (r : DResult)
    (ot : OneTime) (hw : w[j]? = some ot) (hcb : ot.outerCallbacks = []) :
    runOuterCallbacks f w j r = (w, []) := by
  cases f with
  | zero => simp [runOuterCallbacks]
  | succ g => simp [runOuterCallbacks, hw, hcb]

/-- Invoking a user `(callback, errback)` pair on a value result only
records the invocation. -/
theorem invokePair_user (f : Nat) (w : World) (j u : Nat) (e : Option CB)
    (v : PVal) :
    invokePair (f + 2) w j (CB.user u, e) (DResult.val v) =
      (w, [Ev.inv u (DResult.val v)]) := by
  simp [invokePair, invokeCB]

/-- Invoking a check entry while the events pile is non-empty re-appends
a check entry at the end of the pile (first branch of `OneTime._check`). -/
theorem invokePair_check_append (g : Nat) (w : World) (j : Nat) (e : Option CB)
    (v : PVal) (ot : OneTime) (hw : w[j]? = some ot)
    (hne : ot.eventsCallbacks ≠ []) :
    invokePair (g + 2) w j (CB.check, e) (DResult.val v) =
      (w.set j
        { ot with eventsCallbacks := ot.eventsCallbacks ++ [(CB.check, none)] },
       []) := by
  simp [invokePair, invokeCB, hw, hne]

/-- Running a block of user callbacks at the head of the events pile of a
single-event world invokes each of them in order with the settled value
and proceeds with the remainder of the pile. -/
theorem runEvents_userBlock (us : List Nat) (f : Nat) (ot : OneTime)
    (rest : List CBPair) (v : PVal)
    (hpile : ot.eventsCallbacks = us.map (fun i => (CB.user i, none)) ++ rest) :
    runEventsCallbacks (f + us.length + 2) [ot] 0 (DResult.val v) =
      ((runEventsCallbacks (f + 2)
          [{ ot with eventsCallbacks := rest }] 0 (DResult.val v)).1,
       us.map (fun i => Ev.inv i (DResult.val v)) ++
         (runEventsCallbacks (f + 2)
           [{ ot with eventsCallbacks := rest }] 0 (DResult.val v)).2) := by
  induction us generalizing ot with
  | nil =>
    have : { ot with eventsCallbacks := rest } = ot := by
      cases ot; simp_all
    rw [this]
    simp
  | cons u us ih =>
    rw [List.length_cons,
      show f + (us.length + 1) + 2 = (f + us.length + 2) + 1 from by omega]
    rw [runEventsCallbacks]
    simp only [List.getElem?_cons_zero, List.set_cons_zero, hpile,
      List.map_cons, List.cons_append, invokePair_user]
    rw [ih { ot with eventsCallbacks := us.map (fun i => (CB.user i, none)) ++ rest }
      (by simp)]
    simp

/-- A pile containing only a check entry settles the outer deferred with
the settled value (the `elif self._chained_to is None: self.callback(result)`
branch of `OneTime._check`). -/
theorem runEvents_finalCheck (f : Nat) (ot : OneTime) (e : Option CB)
    (v : PVal) (hpile : ot.eventsCallbacks = [(CB.check, e)])
    (hch : ot.chained = false) (hout : ot.outerResult = none)
    (houtcb : ot.outerCallbacks = []) :
    runEventsCallbacks (f + 5) [ot] 0 (DResult.val v) =
      ([{ ot with eventsCallbacks := [], outerResult := some (DResult.val v) }],
       [Ev.settled 0 (DResult.val v)]) := by
  rw [show f + 5 = ((((f + 1) + 1) + 1) + 1) + 1 from by omega]
  simp [runEventsCallbacks, invokePair, invokeCB, deferredCallback, hpile, hch, hout,
    runOuter_nil (f + 1)
      [{ ot with chained := false, eventsCallbacks := [], outerResult := some (DResult.val v) }]
      0 (DResult.val v)
      { ot with chained := false, eventsCallbacks := [], outerResult := some (DResult.val v) }
      (by simp) (by simp [houtcb])]

/-- Running a pile consisting of a check entry followed by user entries
(the shape produced by a `fire` with a deferred argument followed by late
`bind` calls) invokes all the user callbacks with the settled value and
then settles the outer deferred: the check entry re-appends itself past
the late-bound entries and only settles once the pile has drained. -/
theorem runEvents_checkBlock (late : List Nat) (f : Nat) (ot : OneTime)
    (e : Option CB) (v : PVal)
    (hpile : ot.eventsCallbacks =
      (CB.check, e) :: late.map (fun i => (CB.user i, none)))
    (hch : ot.chained = false) (hout : ot.outerResult = none)
    (houtcb : ot.outerCallbacks = []) :
    runEventsCallbacks (f + late.length + 6) [ot] 0 (DResult.val v) =
      ([{ ot with eventsCallbacks := [], outerResult := some (DResult.val v) }],
       late.map (fun i => Ev.inv i (DResult.val v)) ++
         [Ev.settled 0 (DResult.val v)]) := by
  cases late with
  | nil =>
    rw [show f + List.length ([] : List Nat) + 6 = (f + 1) + 5 from by simp]
    rw [runEvents_finalCheck (f + 1) ot e v (by simpa using hpile) hch hout houtcb]
    simp
  | cons l ls =>
    rw [List.length_cons,
      show f + (ls.length + 1) + 6 = ((f + 3) + (ls.length + 1) + 2) + 1
        from by omega]
    rw [runEventsCallbacks]
    simp only [List.getElem?_cons_zero, List.set_cons_zero, hpile]
    rw [invokePair_check_append ((f + 3) + (ls.length + 1))
      [{ ot with eventsCallbacks := (l :: ls).map (fun i => (CB.user i, none)) }]
      0 e v
      { ot with eventsCallbacks := (l :: ls).map (fun i => (CB.user i, none)) }
      (by simp) (by simp)]
    simp only [List.set_cons_zero]
    rw [show (f + 3) + (ls.length + 1) + 2 = (f + 3) + (l :: ls).length + 2
      from by simp]
    rw [runEvents_userBlock (l :: ls) (f + 3)
      { ot with eventsCallbacks :=
          (l :: ls).map (fun i => (CB.user i, none)) ++ [(CB.check, none)] }
      [(CB.check, none)] v (by simp)]
    rw [show f + 3 + 2 = f + 5 from rfl]
    rw [runEvents_finalCheck f
      { ot with eventsCallbacks := [(CB.check, none)] } none v
      (by simp) (by simp [hch]) (by simp [hout]) (by simp [houtcb])]
    simp

/-- `OneTime.fire` with a not-yet-settled deferred argument on a fresh
single-event world: `self._events` adopts the deferred and a
`(self._check, self._check)` pair is appended at the end of the callback
pile; nothing settles and nothing is invoked yet. -/
theorem fire_pendingDeferred (f : Nat) (ot : OneTime)
    (hp : ot.pauseCounter = 0) (hf : ot.eventsResult = none) :
    OneTime.fire (f + 1) [ot] 0 FireArg.pendingDeferred none none [] =
      ([{ ot with eventsWaiting := true, eventsCallbacks := ot.eventsCallbacks ++ [(CB.check, some CB.check)] }],
       [], none) := by
  simp [OneTime.fire, hp, hf, updateW]

/-- Binding callbacks while the internal deferred is unsettled appends
them, in order, at the end of the callback pile. -/
theorem bindAll_pending (fuel : Nat) (late : List Nat) (ot : OneTime)
    (hf : ot.eventsResult = none) :
    bindAll fuel [ot] 0 late =
      ([{ ot with eventsCallbacks :=
          ot.eventsCallbacks ++ late.map (fun i => (CB.user i, none)) }], []) := by
  induction late generalizing ot with
  | nil =>
    have : { ot with eventsCallbacks := ot.eventsCallbacks ++
        ([] : List Nat).map (fun i => (CB.user i, none)) } = ot := by
      cases ot; simp
    rw [this]
    simp [bindAll]
  | cons l ls ih =>
    have step : bindAll fuel [ot] 0 (l :: ls) =
        bindAll fuel
          [{ ot with eventsCallbacks :=
              ot.eventsCallbacks ++ [(CB.user l, none)] }] 0 ls := by
      simp [bindAll, OneTime.bind, hf]
    rw [step,
      ih { ot with eventsCallbacks := ot.eventsCallbacks ++ [(CB.user l, none)] }
        (by simp [hf])]
    simp

/-- Settling the inner deferred that `self._events` adopted: the internal
deferred adopts the result and its callback pile runs with it. -/
theorem settleInner_waiting (fuel : Nat) (ot : OneTime) (r : DResult)
    (hw : ot.eventsWaiting = true) :
    settleInner fuel [ot] 0 r =
      runEventsCallbacks fuel
        [{ ot with eventsWaiting := false, eventsResult := some r }] 0 r := by
  simp [settleInner, hw]

/-! ## Lemmas about cancellation -/

/-- A pile entry made only of user callbacks (the shape `bind`/`fire`
produce: a user callback with an optional user errback). -/
def isUserPair : CBPair → Bool
  | (CB.user _, none) => true
  | (CB.user _, some (CB.user _)) => true
  | _ => false

/-- Trace of invoking such a pair on an error result: the errback (when
present) is invoked with the failure, a missing errback is skipped. -/
def userPairErrTrace (e : Err) : CBPair → List Ev
  | (_, some (CB.user i)) => [Ev.inv i (DResult.err e)]
  | _ => []

/-- The world indices of the `OneTime` entries of an events table. -/
def oneIdxs (entries : List (String × Entry)) : List Nat :=
  entries.filterMap (fun p =>
    match p.2 with
    | Entry.one j => some j
    | Entry.many _ => none)

/-- A cancelled `OneTime`: its outer deferred has failed with `Cancelled`
and its waiters have been notified and drained. -/
def cancelledOT (ot : OneTime) : OneTime :=
  { ot with outerResult := some (DResult.err Err.cancelled), outerCallbacks := [] }

/-- Invoking a user pair on an error result leaves the world unchanged
and at most runs the errback. -/
theorem invokePair_userPair (g : Nat) (w : World) (j : Nat) (p : CBPair)
    (e : Err) (hp : isUserPair p = true) :
    invokePair (g + 2) w j p (DResult.err e) = (w, userPairErrTrace e p) := by
  obtain ⟨c, eb⟩ := p
  cases c with
  | user i =>
    cases eb with
    | none => simp [invokePair, invokeCB, userPairErrTrace]
    | some x =>
      cases x with
      | user k => simp [invokePair, invokeCB, userPairErrTrace]
      | check => simp [isUserPair] at hp
      | fireEv k => simp [isUserPair] at hp
      | settleEv k => simp [isUserPair] at hp
  | check => simp [isUserPair] at hp
  | fireEv k => simp [isUserPair] at hp
  | settleEv k => simp [isUserPair] at hp

/-- Running an outer pile consisting only of user pairs on an error
result drains the pile, notifies the errbacks and touches no other part
of the world. -/
theorem runOuter_userPairs (us : List CBPair) (f : Nat) (w : World) (j : Nat)
    (ot : OneTime) (e : Err) (hw : w[j]? = some ot)
    (hpile : ot.outerCallbacks = us)
    (hus : ∀ p ∈ us, isUserPair p = true) :
    ∃ tr, runOuterCallbacks ((f + 2) + us.length) w j (DResult.err e) =
      (w.set j { ot with outerCallbacks := [] }, tr) := by
  induction us generalizing w ot with
  | nil =>
    refine ⟨[], ?_⟩
    rw [runOuter_nil _ w j _ ot hw (by simp [hpile])]
    have h1 : { ot with outerCallbacks := ([] : List CBPair) } = ot := by
      cases ot; simp_all
    rw [h1, set_get_self w j ot hw]
  | cons p us ih =>
    rw [List.length_cons,
      show (f + 2) + (us.length + 1) = ((f + 2) + us.length) + 1 from by omega]
    rw [runOuterCallbacks]
    simp only [hw, hpile]
    rw [show (f + 2) + us.length = (f + us.length) + 2 from by omega]
    rw [invokePair_userPair (f + us.length) (w.set j { ot with outerCallbacks := us })
      j p e (hus p (by simp))]
    rw [show (f + us.length) + 2 = (f + 2) + us.length from by omega]
    have hjlt : j < w.length := by
      by_contra hge
      rw [List.getElem?_eq_none (by omega)] at hw
      exact Option.noConfusion hw
    obtain ⟨tr2, htr2⟩ := ih (w.set j { ot with outerCallbacks := us })
      { ot with outerCallbacks := us }
      (List.getElem?_set_eq_of_lt _ (by simpa using hjlt)) rfl
      (fun q hq => hus q (by simp [hq]))
    rw [htr2]
    refine ⟨userPairErrTrace e p ++ tr2, ?_⟩
    simp [List.set_set]

/-- Cancelling an already settled `OneTime` is a no-op. -/
theorem cancel_fired (f : Nat) (w : World) (j : Nat) (ot : OneTime)
    (hw : w[j]? = some ot) (hout : ot.outerResult.isSome = true) :
    OneTime.cancel f w j = (w, []) := by
  simp [OneTime.cancel, hw, hout]

/-- Cancelling a pending `OneTime` whose outer pile contains only user
pairs fails it with `Cancelled`, drains the pile and touches nothing
else. -/
theorem cancel_pending (f : Nat) (w : World) (j : Nat) (ot : OneTime)
    (hw : w[j]? = some ot) (hout : ot.outerResult = none)
    (hus : ∀ p ∈ ot.outerCallbacks, isUserPair p = true) :
    ∃ tr, OneTime.cancel ((f + 3) + ot.outerCallbacks.length) w j =
      (w.set j (cancelledOT ot), tr) := by
  rw [show (f + 3) + ot.outerCallbacks.length =
    (((f + 2) + ot.outerCallbacks.length) + 1) from by omega]
  simp only [OneTime.cancel, hw, hout, Option.isSome_none, Bool.false_eq_true,
    if_false, deferredCallback]
  obtain ⟨tr, htr⟩ := runOuter_userPairs ot.outerCallbacks f
    (w.set j { ot with outerResult := some (DResult.err Err.cancelled) }) j
    { ot with outerResult := some (DResult.err Err.cancelled) }
    Err.cancelled
    (by
      have hjlt : j < w.length := by
        by_contra hge
        rw [List.getElem?_eq_none (by omega)] at hw
        exact Option.noConfusion hw
      exact List.getElem?_set_eq_of_lt _ (by simpa using hjlt))
    rfl hus
  rw [htr]
  refine ⟨Ev.settled j (DResult.err Err.cancelled) :: tr, ?_⟩
  simp [List.set_set, cancelledOT]

/-- Whether `cancel_one_time_events` will cancel the event at world index
`k`: there is such an event, its name is not excluded and its outer
deferred is still pending. -/
def toCancel (exclude : List String) (w : World) (k : Nat) : Bool :=
  match w[k]? with
  | some ot => decide (ot.name ∉ exclude) && decide (ot.outerResult = none)
  | none => false

/-- `toCancel` only looks at the entry at index `k`. -/
theorem toCancel_congr (exclude : List String) (w w' : World) (k : Nat)
    (h : w[k]? = w'[k]?) : toCancel exclude w k = toCancel exclude w' k := by
  simp [toCancel, h]

/-- Pointwise effect of the cancellation loop: an event is replaced by
its cancelled version exactly when it is a `OneTime` of the table, not
excluded and still pending; every other world entry is untouched. -/
theorem cancelFold_getElem (entries : List (String × Entry)) (fuel : Nat)
    (exclude : List String) :
    ∀ (w : World) (tr : List Ev),
    (∀ j ∈ oneIdxs entries, ∃ ot, w[j]? = some ot ∧
       (∀ p ∈ ot.outerCallbacks, isUserPair p = true) ∧
       ot.outerCallbacks.length + 3 ≤ fuel) →
    (oneIdxs entries).Nodup →
    ∀ k : Nat,
      (entries.foldl (cancelStep fuel exclude) (w, tr)).1[k]? =
        if k ∈ oneIdxs entries ∧ toCancel exclude w k = true
        then (w[k]?).map cancelledOT
        else w[k]? := by
  induction entries with
  | nil => intro w tr _ _ k; simp [oneIdxs]
  | cons p0 rest ih =>
    intro w tr hvalid hnd k
    obtain ⟨s0, ent⟩ := p0
    cases ent with
    | many m =>
      rw [List.foldl_cons, show cancelStep fuel exclude (w, tr) (s0, Entry.many m)
        = (w, tr) from rfl]
      rw [ih w tr (by simpa [oneIdxs, List.filterMap_cons] using hvalid)
        (by simpa [oneIdxs, List.filterMap_cons] using hnd) k]
      simp [oneIdxs, List.filterMap_cons]
    | one j =>
      have hcons : oneIdxs ((s0, Entry.one j) :: rest) = j :: oneIdxs rest := by
        simp [oneIdxs]
      rw [hcons] at hvalid hnd
      obtain ⟨otj, hwj, husj, hlenj⟩ := hvalid j (by simp)
      have hjlt : j < w.length := by
        by_contra hge
        rw [List.getElem?_eq_none (by omega)] at hwj
        exact Option.noConfusion hwj
      have hndrest : (oneIdxs rest).Nodup := hnd.of_cons
      have hjnot : j ∉ oneIdxs rest := by
        have := List.nodup_cons.mp hnd
        exact this.1
      rw [List.foldl_cons]
      by_cases hexc : otj.name ∈ exclude
      · rw [show cancelStep fuel exclude (w, tr) (s0, Entry.one j) = (w, tr) from by
          simp [cancelStep, hwj, hexc]]
        rw [ih w tr (fun j' hj' => hvalid j' (by simp [hj'])) hndrest k]
        rw [hcons]
        by_cases hkj : k = j
        · subst hkj
          simp only [hjnot, false_and, if_false]
          have : toCancel exclude w k = false := by
            simp [toCancel, hwj, hexc]
          simp [this]
        · simp [List.mem_cons, hkj]
      · match houtj : otj.outerResult with
        | some r =>
          rw [show cancelStep fuel exclude (w, tr) (s0, Entry.one j) = (w, tr ++ []) from by
            simp [cancelStep, hwj, hexc,
              cancel_fired fuel w j otj hwj (by simp [houtj])]]
          rw [ih w (tr ++ []) (fun j' hj' => hvalid j' (by simp [hj'])) hndrest k]
          rw [hcons]
          by_cases hkj : k = j
          · subst hkj
            simp only [hjnot, false_and, if_false]
            have : toCancel exclude w k = false := by
              simp [toCancel, hwj, houtj]
            simp [this]
          · simp [List.mem_cons, hkj]
        | none =>
          obtain ⟨trc, htrc⟩ := cancel_pending (fuel - 3 - otj.outerCallbacks.length)
            w j otj hwj houtj husj
          rw [show ((fuel - 3 - otj.outerCallbacks.length) + 3) +
            otj.outerCallbacks.length = fuel from by omega] at htrc
          rw [show cancelStep fuel exclude (w, tr) (s0, Entry.one j) =
            (w.set j (cancelledOT otj), tr ++ trc) from by
            simp [cancelStep, hwj, hexc, htrc]]
          have hset : ∀ k' : Nat, k' ≠ j →
              (w.set j (cancelledOT otj))[k']? = w[k']? := by
            intro k' hne
            exact List.getElem?_set_ne (by omega)
          rw [ih (w.set j (cancelledOT otj)) (tr ++ trc)
            (fun j' hj' => by
              obtain ⟨ot', hw', hus', hlen'⟩ := hvalid j' (by simp [hj'])
              have hne : j' ≠ j := fun he => hjnot (he ▸ hj')
              exact ⟨ot', (hset j' hne).trans hw', hus', hlen'⟩)
            hndrest k]
          rw [hcons]
          by_cases hkj : k = j
          · subst hkj
            simp only [hjnot, false_and, if_false]
            rw [List.getElem?_set_eq_of_lt _ hjlt]
            have : toCancel exclude w k = true := by
              simp [toCancel, hwj, hexc, houtj]
            simp [this, hwj]
          · rw [toCancel_congr exclude _ w k (hset k hkj), hset k hkj]
            simp [List.mem_cons, hkj]

/-- The C5 scenario: a fresh `OneTime` with `pre` already-bound callbacks
is fired with a not-yet-settled deferred argument, `late` further
callbacks are bound via `bind` while the fire is in flight, and then the
inner deferred settles with value `v`. -/
def lateBindScenario (pre late : List Nat) (v : PVal) : World × List Ev :=
  settleInner (pre.length + late.length + 8)
    (bindAll (pre.length + late.length + 8)
      (OneTime.fire (pre.length + late.length + 8)
        [⟨"o", 0, false, none, false, pre.map (fun i => (CB.user i, none)), none, []⟩]
        0 FireArg.pendingDeferred none none []).1
      0 late).1
    0 (DResult.val v)

/-! ## Claim theorems -/

/-- C7: after `cancel_one_time_events(exclude)`, every `OneTime` event of
the table whose name is not in `exclude` and which had not yet fired is
cancelled: its outer deferred is failed with `Cancelled` and its waiters
are notified and drained, so it is no longer pending.  Events named in
`exclude` and already-fired `OneTime` events are left exactly as they
were, and so is every world entry not referenced by the table; the
`ManyEvent` entries live inside the handler, which the operation returns
untouched by construction.  The hypotheses restrict the statement to
events at rest: outer piles contain only user pairs, firedness of
`self._events` and settledness of the outer deferred coincide, the
table's `OneTime` indices are distinct, and the fuel covers each pile. -/
theorem cancel_one_time_events_spec (fuel : Nat) (w : World)
    (h : EventHandler) (exclude : List String)
    (hvalid : ∀ j ∈ oneIdxs h.events, ∃ ot, w[j]? = some ot ∧
       (∀ p ∈ ot.outerCallbacks, isUserPair p = true) ∧
       (ot.eventsResult.isSome ↔ ot.outerResult.isSome) ∧
       ot.outerCallbacks.length + 3 ≤ fuel)
    (hnd : (oneIdxs h.events).Nodup) :
    (∀ j ∈ oneIdxs h.events, ∀ ot, w[j]? = some ot →
       ((ot.name ∈ exclude ∨ ot.has_fired = true) →
         (EventHandler.cancel_one_time_events fuel w h exclude).1[j]? = some ot) ∧
       (ot.name ∉ exclude → ot.has_fired = false →
         (EventHandler.cancel_one_time_events fuel w h exclude).1[j]? =
           some (cancelledOT ot))) ∧
    (∀ k, k ∉ oneIdxs h.events →
       (EventHandler.cancel_one_time_events fuel w h exclude).1[k]? = w[k]?) := by
  have hfold := cancelFold_getElem h.events fuel exclude w []
    (fun j hj => by
      obtain ⟨ot, h1, h2, _, h4⟩ := hvalid j hj
      exact ⟨ot, h1, h2, h4⟩) hnd
  constructor
  · intro j hj ot hwj
    obtain ⟨ot', hw', hus', hcouple', hlen'⟩ := hvalid j hj
    rw [hwj] at hw'
    have ote : ot' = ot := by
      injection hw'.symm
    rw [ote] at hus' hcouple' hlen'
    constructor
    · intro hcase
      have hTC : toCancel exclude w j = false := by
        rcases hcase with hexc | hfired
        · simp [toCancel, hwj, hexc]
        · have hsome : ot.outerResult.isSome = true := by
            have := hcouple'.mp
            simp only [OneTime.has_fired] at hfired
            simpa using this (by simp [hfired])
          simp only [toCancel, hwj]
          rcases hres : ot.outerResult with _ | r
          · rw [hres] at hsome; simp at hsome
          · simp
      rw [EventHandler.cancel_one_time_events, hfold j]
      simp [hTC, hwj]
    · intro hexc hnf
      have hout : ot.outerResult = none := by
        have h1 : ot.eventsResult.isSome = false := by
          simpa [OneTime.has_fired] using hnf
        rcases hres : ot.outerResult with _ | r
        · rfl
        · have := hcouple'.mpr (by simp [hres])
          rw [h1] at this
          simp at this
      have hTC : toCancel exclude w j = true := by
        simp [toCancel, hwj, hexc, hout]
      rw [EventHandler.cancel_one_time_events, hfold j]
      simp [hj, hTC, hwj]
  · intro k hk
    rw [EventHandler.cancel_one_time_events, hfold k]
    simp [hk]

/-- Sample world for the C7 witness: a fresh event, a fired event and a
pending event with two waiters. -/
def sampleCancelWorld : World :=
  [⟨"a", 0, false, none, false, [], none, []⟩,
   ⟨"b", 0, false, some (DResult.val (PVal.num 1)), false, [], some (DResult.val (PVal.num 1)), []⟩,
   ⟨"c", 0, false, none, false, [], none, [(CB.user 4, some (CB.user 5)), (CB.user 6, none)]⟩]

/-- Sample handler table for the C7 witness. -/
def sampleCancelHandler : EventHandler :=
  ⟨[(("a"), Entry.one 0), (("b"), Entry.one 1), (("c"), Entry.one 2),
    (("m"), Entry.many ⟨"m", [], 0⟩)]⟩

/-- Witness for C7: cancelling with `exclude = [a]` leaves the excluded
fresh event and the fired event unchanged, cancels the pending event and
touches nothing outside the table. -/
theorem cancel_one_time_events_spec_witness :
    (EventHandler.cancel_one_time_events 10 sampleCancelWorld sampleCancelHandler [("a")]).1[0]? =
      some ⟨"a", 0, false, none, false, [], none, []⟩ ∧
    (EventHandler.cancel_one_time_events 10 sampleCancelWorld sampleCancelHandler [("a")]).1[1]? =
      some ⟨"b", 0, false, some (DResult.val (PVal.num 1)), false, [], some (DResult.val (PVal.num 1)), []⟩ ∧
    (EventHandler.cancel_one_time_events 10 sampleCancelWorld sampleCancelHandler [("a")]).1[2]? =
      some (cancelledOT ⟨"c", 0, false, none, false, [], none, [(CB.user 4, some (CB.user 5)), (CB.user 6, none)]⟩) ∧
    (EventHandler.cancel_one_time_events 10 sampleCancelWorld sampleCancelHandler [("a")]).1[7]? = none := by
  have hs := cancel_one_time_events_spec 10 sampleCancelWorld sampleCancelHandler
    [("a")]
    (by
      intro j hj
      simp only [sampleCancelHandler, oneIdxs, List.filterMap_cons,
        List.filterMap_nil] at hj
      simp only [List.mem_cons, List.not_mem_nil, or_false] at hj
      rcases hj with rfl | rfl | rfl
      · exact ⟨_, rfl, by decide, by decide, by decide⟩
      · exact ⟨_, rfl, by decide, by decide, by decide⟩
      · exact ⟨_, rfl, by decide, by decide, by decide⟩)
    (by decide)
  refine ⟨?_, ?_, ?_, ?_⟩
  · exact (hs.1 0 (by decide) _ rfl).1 (Or.inl (by decide))
  · exact (hs.1 1 (by decide) _ rfl).1 (Or.inr (by decide))
  · exact (hs.1 2 (by decide) _ rfl).2 (by decide) (by decide)
  · exact (hs.2 7 (by decide)).trans rfl

/-- C5: fire a fresh `OneTime` (with callbacks `pre` already bound) with
an argument that is itself an unsettled `Deferred`, bind the callbacks
`late` via `bind()` after the `fire` but before the inner deferred
settles, then settle the inner deferred with value `v`: every late-bound
callback is still invoked, with the final result `v`, and the outer
`OneTime` settles — with `v` — only after every callback bound during the
in-flight settlement has run (its settlement is the last event of the
trace, after the invocations of `pre` and `late`). -/
theorem oneTime_late_bound_callbacks_still_run (pre late : List Nat) (v : PVal) :
    lateBindScenario pre late v =
      ([⟨"o", 0, false, some (DResult.val v), false, [], some (DResult.val v), []⟩],
       pre.map (fun i => Ev.inv i (DResult.val v)) ++
         late.map (fun i => Ev.inv i (DResult.val v)) ++
         [Ev.settled 0 (DResult.val v)]) := by
  unfold lateBindScenario
  rw [show pre.length + late.length + 8 = (pre.length + late.length + 7) + 1
    from rfl]
  rw [fire_pendingDeferred (pre.length + late.length + 7)
    ⟨"o", 0, false, none, false, pre.map (fun i => (CB.user i, none)), none, []⟩
    rfl rfl]
  simp only
  rw [bindAll_pending ((pre.length + late.length + 7) + 1) late
    ⟨"o", 0, false, none, true, pre.map (fun i => (CB.user i, none)) ++ [(CB.check, some CB.check)], none, []⟩
    rfl]
  simp only
  rw [settleInner_waiting ((pre.length + late.length + 7) + 1)
    ⟨"o", 0, false, none, true, (pre.map (fun i => (CB.user i, none)) ++ [(CB.check, some CB.check)]) ++ late.map (fun i => (CB.user i, none)), none, []⟩
    (DResult.val v) rfl]
  simp only
  rw [show (pre.length + late.length + 7) + 1 =
    (late.length + 6) + pre.length + 2 from by omega]
  rw [runEvents_userBlock pre (late.length + 6)
    ⟨"o", 0, false, some (DResult.val v), false, (pre.map (fun i => (CB.user i, none)) ++ [(CB.check, some CB.check)]) ++ late.map (fun i => (CB.user i, none)), none, []⟩
    ((CB.check, some CB.check) :: late.map (fun i => (CB.user i, none)))
    v (by simp)]
  rw [show (late.length + 6) + 2 = 2 + late.length + 6 from by omega]
  rw [runEvents_checkBlock late 2
    ⟨"o", 0, false, some (DResult.val v), false, (CB.check, some CB.check) :: late.map (fun i => (CB.user i, none)), none, []⟩
    (some CB.check) v rfl rfl rfl rfl]
  simp

/-- C1: on a name not present in the events table, `fire_event` does not
log a warning and pass `arg` through as claimed: the guard `elif warning:`
reads the module-level name `warning`, which is undefined, so the call
raises `NameError` (evaluated here at a handler with one known event and
the unknown name "boom"); nothing is logged, no event is fired and the
handler and world are unchanged. -/
theorem fire_event_unknown_name_raises :
    EventHandler.fire_event 10 [{ name := "go" }] ⟨[(("go"), Entry.one 0)]⟩
        ("boom") none none none [] =
      ([{ name := "go" }], ⟨[(("go"), Entry.one 0)]⟩, [], some Err.nameError) := by
  simp [EventHandler.fire_event, EventHandler.event]

/-- C2: `pause()` on a `ManyEvent` does not suppress the next `fire`: the
guard `if not self.has_fired()` uses the `has_fired` inherited from
`Event`, which always returns `True`, so the pause counter is never
incremented and the very next `fire` still invokes the bound callback. -/
theorem manyEvent_pause_then_fire_not_suppressed :
    (ManyEvent.pause { name := "e", handlers := [MHandler.ret 7] } =
      { name := "e", handlers := [MHandler.ret 7] }) ∧
    ManyEvent.fire (ManyEvent.pause { name := "e", handlers := [MHandler.ret 7] })
        (PVal.num 3) none none [] =
      ({ name := "e", handlers := [MHandler.ret 7] },
       [Ev.minv 7 (PVal.num 3) []], none) := by
  constructor <;> rfl

/-- C3 counterexample: a `OneTime` that has already fired (with result 5)
but whose pause counter is positive: the second `fire` is swallowed by the
pause branch, which precedes the already-fired check, so no warning is
logged — contradicting the claim that every re-fire of an already fired
event logs a warning. -/
theorem oneTime_refire_paused_no_warning :
    OneTime.fire 5 [⟨"o", 1, false, some (DResult.val (PVal.num 5)), false, [], some (DResult.val (PVal.num 5)), []⟩] 0 (FireArg.value (DResult.val (PVal.num 9))) none none [] =
      ([⟨"o", 0, false, some (DResult.val (PVal.num 5)), false, [], some (DResult.val (PVal.num 5)), []⟩], [], none) := by
  rfl

/-- C3 (amended with the not-paused proviso): for every `OneTime` that has
already fired with result `r` and is not paused, a second `fire` with any
argument logs a warning, invokes no callbacks, raises nothing and leaves
the world — hence the original result `r` — unchanged. -/
theorem oneTime_refire_warns_preserves (fuel : Nat) (w : World) (j : Nat)
    (ot : OneTime) (r : DResult) (arg : FireArg) (cb eb : Option Nat)
    (kw : List (String × PVal))
    (hw : w[j]? = some ot) (hp : ot.pauseCounter = 0)
    (hr : ot.eventsResult = some r) :
    OneTime.fire (fuel + 1) w j arg cb eb kw = (w, [Ev.warnFired ot.name], none) := by
  simp [OneTime.fire, hw, hp, hr]

/-- Witness for the amended C3 theorem at a concrete fired event. -/
theorem oneTime_refire_warns_preserves_witness :
    OneTime.fire 1 [⟨"o", 0, false, some (DResult.val (PVal.num 5)), false, [], some (DResult.val (PVal.num 5)), []⟩] 0 (FireArg.value (DResult.val (PVal.num 9))) none none [] =
      ([⟨"o", 0, false, some (DResult.val (PVal.num 5)), false, [], some (DResult.val (PVal.num 5)), []⟩], [Ev.warnFired ("o")], none) :=
  oneTime_refire_warns_preserves 0 _ 0 _ (DResult.val (PVal.num 5)) _ none none []
    rfl rfl rfl

/-- The invocation events produced by one handler call inside
`ManyEvent.fire` are exactly one entry for that handler. -/
theorem fireOne_filterMap_inv (name : String) (arg : PVal)
    (kw : List (String × PVal)) (h : MHandler) :
    (ManyEvent.fireOne name arg kw h).filterMap invOf = [(h.hid, arg, kw)] := by
  cases h <;> rfl

/-- The invocation events of a whole handler list, in binding order. -/
theorem flatMap_fireOne_inv (name : String) (arg : PVal)
    (kw : List (String × PVal)) (hs : List MHandler) :
    (hs.flatMap (ManyEvent.fireOne name arg kw)).filterMap invOf =
      hs.map (fun h => (h.hid, arg, kw)) := by
  induction hs with
  | nil => rfl
  | cons h t ih =>
    simp only [List.flatMap_cons, List.filterMap_append, fireOne_filterMap_inv,
      List.map_cons, ih, List.singleton_append]

/-- C4: an unpaused `ManyEvent.fire` never raises, leaves the event
unchanged, and its trace invokes every bound handler with `arg` and the
keyword arguments, in binding order — also when some handlers raise
(raising handlers appear in the invocation sequence like any other; their
exceptions are caught and logged). -/
theorem manyEvent_fire_runs_all_handlers (e : ManyEvent) (arg : PVal)
    (cb eb : Option Nat) (kw : List (String × PVal)) (hp : e.pauseCounter = 0) :
    (ManyEvent.fire e arg cb eb kw).2.2 = none ∧
    (ManyEvent.fire e arg cb eb kw).1 = e ∧
    ((ManyEvent.fire e arg cb eb kw).2.1).filterMap invOf =
      e.handlers.map (fun h => (h.hid, arg, kw)) := by
  refine ⟨?_, ?_, ?_⟩ <;>
    simp [ManyEvent.fire, hp, flatMap_fireOne_inv]

/-- Witness for C4 at a handler list containing a raising handler. -/
theorem manyEvent_fire_runs_all_handlers_witness :
    (ManyEvent.fire ⟨"m", [MHandler.ret 1, MHandler.raises 2, MHandler.gen 3], 0⟩ (PVal.num 4) none none [(("k"), PVal.num 5)]).2.2 = none ∧
    (ManyEvent.fire ⟨"m", [MHandler.ret 1, MHandler.raises 2, MHandler.gen 3], 0⟩ (PVal.num 4) none none [(("k"), PVal.num 5)]).1 =
      ⟨"m", [MHandler.ret 1, MHandler.raises 2, MHandler.gen 3], 0⟩ ∧
    ((ManyEvent.fire ⟨"m", [MHandler.ret 1, MHandler.raises 2, MHandler.gen 3], 0⟩ (PVal.num 4) none none [(("k"), PVal.num 5)]).2.1).filterMap invOf =
      [(1, PVal.num 4, [(("k"), PVal.num 5)]), (2, PVal.num 4, [(("k"), PVal.num 5)]), (3, PVal.num 4, [(("k"), PVal.num 5)])] :=
  manyEvent_fire_runs_all_handlers
    ⟨"m", [MHandler.ret 1, MHandler.raises 2, MHandler.gen 3], 0⟩
    (PVal.num 4) none none [(("k"), PVal.num 5)] rfl

/-- C8: `bind_event` with a name not in the events table logs a warning
and changes nothing: the world, the handler table and every event's
callback list are returned unchanged, and no exception is raised. -/
theorem bind_event_unknown_warns_noop (fuel : Nat) (w : World)
    (h : EventHandler) (name : String) (cb : MHandler) (eb : Option Nat)
    (hn : h.event name = none) :
    EventHandler.bind_event fuel w h name cb eb =
      (w, h, [Ev.warnUnknown name], none) := by
  simp [EventHandler.bind_event, hn]

/-- Witness for C8 on a handler with one known event and an unknown name. -/
theorem bind_event_unknown_warns_noop_witness :
    EventHandler.bind_event 1 [{ name := "go" }] ⟨[(("go"), Entry.one 0)]⟩
        ("boom") (MHandler.ret 0) none =
      ([{ name := "go" }], ⟨[(("go"), Entry.one 0)]⟩,
       [Ev.warnUnknown ("boom")], none) :=
  bind_event_unknown_warns_noop 1 [{ name := "go" }] ⟨[(("go"), Entry.one 0)]⟩
    ("boom") (MHandler.ret 0) none (by simp [EventHandler.event])

/-- C9: `ManyEvent.bind` with a non-`None` errback raises
`AssertionError` and registers nothing; with errback `None` it appends
the callback to the handler list. -/
theorem manyEvent_bind_errback_rules (e : ManyEvent) (cb : MHandler)
    (eb : Option Nat) :
    (eb ≠ none → ManyEvent.bind e cb eb = (e, some Err.assertionError)) ∧
    (eb = none → ManyEvent.bind e cb eb =
      ({ e with handlers := e.handlers ++ [cb] }, none)) := by
  constructor <;> intro h <;> simp [ManyEvent.bind, h]

/-- Witness for C9, both branches at concrete inputs. -/
theorem manyEvent_bind_errback_rules_witness :
    ManyEvent.bind { name := "m" } (MHandler.ret 1) (some 2) =
      ({ name := "m" }, some Err.assertionError) ∧
    ManyEvent.bind { name := "m" } (MHandler.ret 1) none =
      ({ name := "m", handlers := [MHandler.ret 1] }, none) :=
  ⟨(manyEvent_bind_errback_rules { name := "m" } (MHandler.ret 1) (some 2)).1
      (by simp),
   (manyEvent_bind_errback_rules { name := "m" } (MHandler.ret 1) none).2 rfl⟩

/-- C10: an unpaused, not-yet-fired `OneTime` fired with a non-empty
keyword-argument mapping raises `AssertionError` and changes nothing —
in particular the event stays unfired. -/
theorem oneTime_fire_kwargs_assert (fuel : Nat) (w : World) (j : Nat)
    (ot : OneTime) (arg : FireArg) (cb eb : Option Nat)
    (kw : List (String × PVal))
    (hw : w[j]? = some ot) (hp : ot.pauseCounter = 0)
    (hf : ot.eventsResult = none) (hk : kw ≠ []) :
    OneTime.fire (fuel + 1) w j arg cb eb kw = (w, [], some Err.assertionError) := by
  simp [OneTime.fire, hw, hp, hf, hk]

/-- C6 counterexample: chain `self` (index 0) to `other` (index 1), both
fresh; `chain` binds `other.fire` as a callback of `self`, so firing
`other` afterwards settles `other` alone and leaves `self` untouched and
unfired: `chain` does not propagate the firing of `other` into `self` as
the claim states. -/
theorem oneTime_chain_no_propagation_from_other :
    (OneTime.chain 5 [⟨"a", 0, false, none, false, [], none, []⟩, ⟨"b", 0, false, none, false, [], none, []⟩] 0 1).1 =
      [⟨"a", 0, false, none, false, [], none, [(CB.fireEv 1, some (CB.fireEv 1))]⟩, ⟨"b", 0, false, none, false, [], none, []⟩] ∧
    OneTime.fire 20 [⟨"a", 0, false, none, false, [], none, [(CB.fireEv 1, some (CB.fireEv 1))]⟩, ⟨"b", 0, false, none, false, [], none, []⟩] 1 (FireArg.value (DResult.val (PVal.num 5))) none none [] =
      ([⟨"a", 0, false, none, false, [], none, [(CB.fireEv 1, some (CB.fireEv 1))]⟩, ⟨"b", 0, false, some (DResult.val (PVal.num 5)), false, [], some (DResult.val (PVal.num 5)), []⟩],
       [Ev.settled 1 (DResult.val (PVal.num 5))], none) := by
  constructor <;> rfl

/-- C6 (amended, direction reversed): `self.chain(other)` propagates the
firing of `self` into `other`: with both events fresh, `chain` binds
`other.fire` as callback and errback of `self`, and a subsequent fire of
`self` with value `v` settles `other` with `v` as well; `other` settles
exactly once (its settlement appears exactly once in the trace); when
`other` has already fired and settled (with any result `r`), no
propagation link is established and nothing changes. -/
theorem oneTime_chain_propagates_self_into_other (v : PVal) (r : DResult) :
    (OneTime.chain 5 [⟨"a", 0, false, none, false, [], none, []⟩, ⟨"b", 0, false, none, false, [], none, []⟩] 0 1).1 =
      [⟨"a", 0, false, none, false, [], none, [(CB.fireEv 1, some (CB.fireEv 1))]⟩, ⟨"b", 0, false, none, false, [], none, []⟩] ∧
    OneTime.fire 12 [⟨"a", 0, false, none, false, [], none, [(CB.fireEv 1, some (CB.fireEv 1))]⟩, ⟨"b", 0, false, none, false, [], none, []⟩] 0 (FireArg.value (DResult.val v)) none none [] =
      ([⟨"a", 0, false, some (DResult.val v), false, [], some (DResult.val v), []⟩, ⟨"b", 0, false, some (DResult.val v), false, [], some (DResult.val v), []⟩],
       [Ev.settled 0 (DResult.val v), Ev.settled 1 (DResult.val v)], none) ∧
    OneTime.chain 5 [⟨"a", 0, false, none, false, [], none, []⟩, ⟨"b", 0, false, some r, false, [], some r, []⟩] 0 1 =
      ([⟨"a", 0, false, none, false, [], none, []⟩, ⟨"b", 0, false, some r, false, [], some r, []⟩], []) := by
  refine ⟨rfl, ?_, ?_⟩
  · simp [OneTime.fire, runEventsCallbacks, runOuterCallbacks, invokePair, invokeCB,
      deferredCallback, updateW]
  · simp [OneTime.chain, OneTime.has_fired, OneTime.done]

/-- Witness for C10 at a fresh event and one keyword parameter. -/
theorem oneTime_fire_kwargs_assert_witness :
    OneTime.fire 1 [{ name := "o" }] 0 (FireArg.value (DResult.val (PVal.num 1)))
        none none [(("k"), PVal.num 2)] =
      ([{ name := "o" }], [], some Err.assertionError) :=
  oneTime_fire_kwargs_assert 0 [{ name := "o" }] 0 { name := "o" }
    (FireArg.value (DResult.val (PVal.num 1))) none none [(("k"), PVal.num 2)]
    rfl rfl rfl (by simp)

end Pulsar
